import Mathlib

/-!
# badge-reader: presence monitoring, identity extraction and event publishing

A shallow embedding of `badge-reader.go`.  The smart-card driver, the clock, the
properties file and the broker client are external collaborators; each is
represented by the scripted answers it gives to the calls the program makes.
Go strings are modelled as `List Char` (valid UTF-8 text).
-/

namespace BadgeReader

/-! ## Driver observations -/

/-- Go `scard.StateUnaware`. -/
def StateUnaware : Nat := 0x0000

/-- Go `scard.StatePresent`, the "card present" bit of an event state. -/
def StatePresent : Nat := 0x0020

/-- Go `scard.ReaderState`, restricted to the fields the program touches. -/
structure ReaderState where
  Reader : List Char
  CurrentState : Nat
  EventState : Nat
deriving DecidableEq, Repr

/-- One scripted answer of `ctx.GetStatusChange(rs, -1)`: either an error, or the event
states the driver writes into the observation slice, by position. -/
inductive StatusChange where
  | states (es : List Nat)
  | error
deriving DecidableEq, Repr

/-- The test `rs[i].EventState&scard.StatePresent != 0`. -/
def cardPresent (r : ReaderState) : Bool :=
  r.EventState &&& StatePresent != 0

/-- The slice set-up shared by both monitors:
`rs[i].Reader = readers[i]; rs[i].CurrentState = scard.StateUnaware`
(the event state is Go's zero value). -/
def newReaderStates (readers : List (List Char)) : List ReaderState :=
  readers.map fun name => { Reader := name, CurrentState := StateUnaware, EventState := 0 }

/-- The driver's write-back of a successful status change: slot `i` receives event state
`es[i]`; a slot the answer does not cover keeps its previous event state. -/
def applyStates : List ReaderState → List Nat → List ReaderState
  | [], _ => []
  | r :: rs, [] => r :: rs
  | r :: rs, e :: es => { r with EventState := e } :: applyStates rs es

/-- What a monitor call comes to.  `returned i rs rest` is Go's `(i, nil)`, together with
the observation slice at that moment and the unconsumed driver answers; `failed` is Go's
`(-1, err)`; `pending` means the call has not returned when the scripted answers end
(it is blocked in the driver, or it spins). -/
inductive Wait where
  | returned (i : Nat) (rs : List ReaderState) (rest : List StatusChange)
  | failed (rest : List StatusChange)
  | pending
deriving DecidableEq, Repr

/-! ## Presence monitor -/

/-- The inner `for i := range rs` of `waitUntilCardPresent`, from index `i` on: the first
slot carrying the Present bit ends the scan with its index; every slot passed before
that has `CurrentState` advanced to its `EventState`.  The result is the index found (if
any) and the slice as the scan leaves it. -/
def presentScan : List ReaderState → Nat → Option Nat × List ReaderState
  | [], _ => (none, [])
  | r :: rs, i =>
    if cardPresent r then (some i, r :: rs)
    else
      let res := presentScan rs (i + 1)
      (res.1, { r with CurrentState := r.EventState } :: res.2)

/-- The outer `for` of `waitUntilCardPresent`: scan the slice; when no slot is present,
block in `GetStatusChange` (the next scripted answer) and go round again. -/
def presentLoop : List ReaderState → List StatusChange → Wait
  | rs, [] =>
    match presentScan rs 0 with
    | (some i, rs') => Wait.returned i rs' []
    | (none, _) => Wait.pending
  | rs, answer :: rest =>
    match presentScan rs 0 with
    | (some i, rs') => Wait.returned i rs' (answer :: rest)
    | (none, rs') =>
      match answer with
      | StatusChange.error => Wait.failed rest
      | StatusChange.states es => presentLoop (applyStates rs' es) rest

/-- Go `waitUntilCardPresent(ctx, readers)` against the scripted driver answers. -/
def waitUntilCardPresent (readers : List (List Char)) (script : List StatusChange) : Wait :=
  presentLoop (newReaderStates readers) script

/-! ## Removal monitor -/

/-- The two nested loops of `waitUntilCardGone`, positioned at inner index `i`: wait for
a status change, then test slot `i`; a slot still present has `CurrentState` advanced and
the inner index moves on, wrapping to `0` after the last slot. -/
def goneLoop : List ReaderState → Nat → List StatusChange → Wait
  | _, _, [] => Wait.pending
  | _, _, StatusChange.error :: rest => Wait.failed rest
  | rs, i, StatusChange.states es :: rest =>
    let rs1 := applyStates rs es
    match rs1[i]? with
    | none => Wait.pending
    | some r =>
      if r.EventState &&& StatePresent = 0 then Wait.returned i rs1 rest
      else
        goneLoop (rs1.set i { r with CurrentState := r.EventState })
          (if i + 1 < rs1.length then i + 1 else 0) rest

/-- Go `waitUntilCardGone(ctx, readers)` against the scripted driver answers.  With an
empty slice the inner loop has no iteration and the outer `for` spins without ever
calling the driver. -/
def waitUntilCardGone (readers : List (List Char)) (script : List StatusChange) : Wait :=
  match readers with
  | [] => Wait.pending
  | _ :: _ => goneLoop (newReaderStates readers) 0 script

/-! ## Identity extraction: `hex.EncodeToString` -/

/-- A Go `byte`. -/
abbrev Byte := Fin 256

/-- Go `encoding/hex`: `const hextable = "0123456789abcdef"`. -/
def hextable : List Char :=
  ['0', '1', '2', '3', '4', '5', '6', '7', '8', '9', 'a', 'b', 'c', 'd', 'e', 'f']

/-- Go `hex.EncodeToString(src)`: per byte `v`, `hextable[v>>4]` then `hextable[v&0x0f]`. -/
def EncodeToString : List Byte → List Char
  | [] => []
  | v :: src => hextable.getD (v.val / 16) '0' :: hextable.getD (v.val % 16) '0' :: EncodeToString src

/-- The numeric value of a lowercase hexadecimal digit. -/
def hexDigitValue (c : Char) : Option Nat :=
  if '0' ≤ c ∧ c ≤ '9' then some (c.toNat - '0'.toNat)
  else if 'a' ≤ c ∧ c ≤ 'f' then some (c.toNat - 'a'.toNat + 10)
  else none

/-- Reading a lowercase hex string back, two digits per byte, high digit first. -/
def hexValues : List Char → Option (List Nat)
  | [] => some []
  | [_] => none
  | hi :: lo :: cs =>
    match hexDigitValue hi, hexDigitValue lo, hexValues cs with
    | some h, some l, some vs => some ((16 * h + l) :: vs)
    | _, _, _ => none

/-! ## Event serialisation: `json.Marshal(Card{...})` -/

/-- Go `type Card struct { Badge string; Time int64 }` with JSON keys `badge`, `time`.
`Time` ranges over the integers, which include every `int64`. -/
structure Card where
  Badge : List Char
  Time : Int
deriving DecidableEq, Repr

/-- The decimal digit character of `d < 10`. -/
def digitChar (d : Nat) : Char := Char.ofNat (d + 48)

/-- The digit loop of Go `strconv` (`formatBits`, base 10): digits are produced from the
least significant one and written right to left, stopping when the quotient is zero. -/
def formatDigits : Nat → Nat → List Char → List Char
  | 0, _, acc => acc
  | fuel + 1, n, acc =>
    if n / 10 = 0 then digitChar (n % 10) :: acc
    else formatDigits fuel (n / 10) (digitChar (n % 10) :: acc)

/-- Decimal text of a natural number. -/
def formatNat (n : Nat) : List Char := formatDigits (n + 1) n []

/-- Go `strconv.AppendInt(dst, t, 10)`: a minus sign for a negative value, then the
decimal digits of the magnitude. -/
def formatInt (t : Int) : List Char :=
  if t < 0 then '-' :: formatNat t.natAbs else formatNat t.natAbs

/-- Four lowercase hex digits of a code point below `0x10000`. -/
def hex4 (n : Nat) : List Char :=
  [hextable.getD (n / 4096 % 16) '0', hextable.getD (n / 256 % 16) '0',
   hextable.getD (n / 16 % 16) '0', hextable.getD (n % 16) '0']

/-- Go `encoding/json` string escaping as `json.Marshal` applies it (HTML escaping on):
`"` and `\` get a backslash, the control characters have their short forms or `\u00XX`,
`<`, `>`, `&` and U+2028, U+2029 are written as `\uXXXX`, everything else is copied. -/
def escapeChar (c : Char) : List Char :=
  if c = '"' then ['\\', '"']
  else if c = '\\' then ['\\', '\\']
  else if c = '\x08' then ['\\', 'b']
  else if c = '\x0c' then ['\\', 'f']
  else if c = '\n' then ['\\', 'n']
  else if c = '\r' then ['\\', 'r']
  else if c = '\t' then ['\\', 't']
  else if c.toNat < 0x20 ∨ c = '<' ∨ c = '>' ∨ c = '&' ∨ c.toNat = 0x2028 ∨ c.toNat = 0x2029 then
    '\\' :: 'u' :: hex4 c.toNat
  else [c]

/-- A JSON string literal: the escaped characters between double quotes. -/
def encodeString (s : List Char) : List Char :=
  '"' :: (s.flatMap escapeChar ++ ['"'])

/-- Go `json.Marshal(newCard)` for a `Card`: the fields in declaration order under their
tag names, no white space. -/
def Marshal (c : Card) : List Char :=
  ['{', '"', 'b', 'a', 'd', 'g', 'e', '"', ':'] ++ encodeString c.Badge
    ++ [',', '"', 't', 'i', 'm', 'e', '"', ':'] ++ formatInt c.Time ++ ['}']

/-- The message `main` builds from the card response and the capture time:
`uidHex := hex.EncodeToString(rsp)`, `newCard := Card{Badge: uidHex, Time: now}`,
`message := json.Marshal(newCard)`. -/
def badgeMessage (rsp : List Byte) (now : Int) : List Char :=
  Marshal { Badge := EncodeToString rsp, Time := now }

/-! ### A reader for the wire format -/

/-- Consume the expected text `pre` from the front of the input. -/
def expect : List Char → List Char → Option (List Char)
  | [], cs => some cs
  | _ :: _, [] => none
  | p :: ps, c :: cs => if p = c then expect ps cs else none

/-- The code point written by four hex digits (either case). -/
def readHex4 (a b c d : Char) : Option Char :=
  match hexDigitValue a.toLower, hexDigitValue b.toLower, hexDigitValue c.toLower,
    hexDigitValue d.toLower with
  | some w, some x, some y, some z => some (Char.ofNat (4096 * w + 256 * x + 16 * y + z))
  | _, _, _, _ => none

/-- Read the body of a JSON string literal up to and including its closing quote,
undoing the escapes; the result is the string and the remaining input. -/
def readString : List Char → Option (List Char × List Char)
  | [] => none
  | [c] => if c = '"' then some ([], []) else none
  | c :: e :: cs =>
    if c = '"' then some ([], e :: cs)
    else if c = '\\' then
      if e = 'u' then
        match cs with
        | w :: x :: y :: z :: rest =>
          match readHex4 w x y z, readString rest with
          | some u, some (s, r) => some (u :: s, r)
          | _, _ => none
        | _ => none
      else
        let plain : Option Char :=
          if e = '"' then some '"' else if e = '\\' then some '\\'
          else if e = '/' then some '/' else if e = 'b' then some '\x08'
          else if e = 'f' then some '\x0c' else if e = 'n' then some '\n'
          else if e = 'r' then some '\r' else if e = 't' then some '\t' else none
        match plain, readString cs with
        | some u, some (s, r) => some (u :: s, r)
        | _, _ => none
    else
      match readString (e :: cs) with
      | some (s, r) => some (c :: s, r)
      | none => none

/-- Read decimal digits, accumulating their value; stop at the first other character. -/
def readDigits : List Char → Nat → Nat × List Char
  | [], acc => (acc, [])
  | c :: cs, acc =>
    if '0' ≤ c ∧ c ≤ '9' then readDigits cs (10 * acc + (c.toNat - 48)) else (acc, c :: cs)

/-- Read a JSON integer: an optional minus sign and at least one digit. -/
def readInt : List Char → Option (Int × List Char)
  | [] => none
  | c :: cs =>
    if c = '-' then
      match cs with
      | d :: _ => if '0' ≤ d ∧ d ≤ '9' then
          let r := readDigits cs 0
          some (-(r.1 : Int), r.2) else none
      | [] => none
    else if '0' ≤ c ∧ c ≤ '9' then
      let r := readDigits (c :: cs) 0
      some ((r.1 : Int), r.2)
    else none

/-- Decoding a published payload: the object `\x7b"badge":<string>,"time":<integer>\x7d`
read back into its two fields. -/
def decodeBadgeEvent (payload : List Char) : Option Card :=
  match expect ['{', '"', 'b', 'a', 'd', 'g', 'e', '"', ':', '"'] payload with
  | none => none
  | some r1 =>
    match readString r1 with
    | none => none
    | some (badge, r2) =>
      match expect [',', '"', 't', 'i', 'm', 'e', '"', ':'] r2 with
      | none => none
      | some r3 =>
        match readInt r3 with
        | none => none
        | some (t, r4) => if r4 = ['}'] then some { Badge := badge, Time := t } else none

/-! ## Broker configuration: `ReadConfig` -/

/-- Go `unicode.IsSpace`, the white space `strings.TrimSpace` removes. -/
def isSpace (c : Char) : Bool :=
  let n := c.toNat
  (9 ≤ n && n ≤ 13) || n = 0x20 || n = 0x85 || n = 0xA0 || n = 0x1680
    || (0x2000 ≤ n && n ≤ 0x200A) || n = 0x2028 || n = 0x2029 || n = 0x202F
    || n = 0x205F || n = 0x3000

/-- Go `strings.TrimSpace`. -/
def TrimSpace (s : List Char) : List Char :=
  ((s.dropWhile isSpace).reverse.dropWhile isSpace).reverse

/-- Go `strings.HasPrefix(s, p)`. -/
def HasPrefix (s p : List Char) : Bool := (expect p s).isSome

/-- Go `strings.Split(s, sep)` for a one-character separator: the pieces between
consecutive separators, one more piece than there are separators. -/
def Split : List Char → Char → List (List Char)
  | [], _ => [[]]
  | c :: cs, sep =>
    if c = sep then [] :: Split cs sep
    else
      match Split cs sep with
      | [] => [[c]]
      | x :: xs => (c :: x) :: xs

/-- The `dropCR` of Go `bufio.ScanLines`: one trailing carriage return is removed. -/
def dropCR (s : List Char) : List Char :=
  if s.getLast? = some '\r' then s.dropLast else s

/-- The raw tokens of Go `bufio.ScanLines`: the text between newlines; text after the last
newline is a token only when it is not empty. -/
def rawLines (text : List Char) : List (List Char) :=
  let ps := Split text '\n'
  if ps.getLast? = some [] then ps.dropLast else ps

/-- Go `bufio.MaxScanTokenSize`. -/
def MaxScanTokenSize : Nat := 64 * 1024

/-- Length in bytes of the UTF-8 encoding. -/
def byteLength (s : List Char) : Nat := (s.map Char.utf8Size).sum

/-- The properties file as `os.Open` and the reads find it: `unreadable err` cannot be
opened; `content text` is read to its end; `failing text err` opens, delivers `text` and
then a read fails with `err` (the path is a directory, the device fails). -/
inductive File where
  | unreadable (err : List Char)
  | content (text : List Char)
  | failing (text : List Char) (err : List Char)
deriving DecidableEq, Repr

/-- Go `kafka.ConfigMap`, a `map[string]ConfigValue`, as an association list with at
most one entry per key. -/
abbrev ConfigMap := List (List Char × List Char)

/-- Go `m[k] = v`. -/
def ConfigMap.set : ConfigMap → List Char → List Char → ConfigMap
  | [], k, v => [(k, v)]
  | (k0, v0) :: m, k, v => if k0 = k then (k, v) :: m else (k0, v0) :: ConfigMap.set m k v

/-- Go `m[k]`, with `none` for an absent key. -/
def ConfigMap.get : ConfigMap → List Char → Option (List Char)
  | [], _ => none
  | (k0, v0) :: m, k => if k0 = k then some v0 else ConfigMap.get m k

/-- How a call that may end the process comes out: it returns a value, the process
exits with a code after printing a message, or the Go runtime panics (index out of
range), which ends the process with the runtime's own status 2. -/
inductive Outcome (α : Type) where
  | returned (a : α)
  | exited (code : Nat) (printed : List Char)
  | panicked (msg : List Char)
deriving DecidableEq, Repr

/-- The `for scanner.Scan()` loop of `ReadConfig` over the raw tokens still to come.  A
token that does not fit the scanner's buffer stops the scan with `scanner.Err()` set,
which the code after the loop turns into exit code 1. -/
def scanConfig : List (List Char) → ConfigMap → Outcome ConfigMap
  | [], m => Outcome.returned m
  | raw :: more, m =>
    if MaxScanTokenSize ≤ byteLength raw then
      Outcome.exited 1 "Failed to read file: bufio.Scanner: token too long".toList
    else
      let line := TrimSpace (dropCR raw)
      if !HasPrefix line ['#'] && line.length != 0 then
        match Split line '=' with
        | k :: v :: _ => scanConfig more (m.set (TrimSpace k) (TrimSpace v))
        | _ => Outcome.panicked "runtime error: index out of range [1] with length 1".toList
      else scanConfig more m

/-- Go `ReadConfig(configFile)`.  After a failed read the scanner still hands over the
tokens of the text it received, then `scanner.Err()` holds the read error and the code
after the loop prints it and exits with code 1. -/
def ReadConfig (file : File) : Outcome ConfigMap :=
  match file with
  | File.unreadable err => Outcome.exited 1 ("Failed to open file: ".toList ++ err)
  | File.content text => scanConfig (rawLines text) []
  | File.failing text err =>
    match scanConfig (rawLines text) [] with
    | Outcome.returned _ => Outcome.exited 1 ("Failed to read file: ".toList ++ err)
    | Outcome.exited code msg => Outcome.exited code msg
    | Outcome.panicked msg => Outcome.panicked msg

/-! ## Publishing and the session loop -/

/-- What the run of `main` does that is visible outside it.  `deferred ctx` records the
registration `defer ctx.Release()`: a deferred call runs when `main` returns, which it
never does (the loop has no exit, and `os.Exit` runs no deferred call), or when a panic
unwinds `main`.  `panicked` is the end of the process through a runtime panic. -/
inductive Event where
  | established (ctx : Nat)
  | deferred (ctx : Nat)
  | released (ctx : Nat)
  | connected (ctx : Nat) (reader : Nat)
  | disconnected (reader : Nat)
  | produced (topic : List Char) (payload : List Char)
  | exited (code : Nat)
  | panicked
deriving DecidableEq, Repr

/-- The scripted collaborators of one outer iteration of `main`. -/
structure Cycle where
  /-- whether `scard.EstablishContext()` succeeds -/
  establish : Bool
  /-- the answer of `ctx.ListReaders()`, `none` for an error -/
  readers : Option (List (List Char))
  /-- the successive answers of `ctx.GetStatusChange` on this context -/
  status : List StatusChange
  /-- whether `ctx.Connect` succeeds -/
  connect : Bool
  /-- the answer of `card.Transmit(command)`, `none` for an error -/
  transmit : Option (List Byte)
  /-- the value of `time.Now().UnixMilli()` -/
  now : Int
  /-- the file `./properties` -/
  properties : File
  /-- whether `kafka.NewProducer(&conf)` succeeds -/
  producer : Bool
deriving DecidableEq, Repr

/-- Go `sendToKafka(topic, message)`: read the configuration, build a producer, hand the
message to it (`p.Produce`, whose own result is ignored), flush and close.
`returned (some ev)` is a `nil` error after the produce call `ev`; `returned none` is the
error of a producer that could not be created. -/
def sendToKafka (topic message : List Char) (properties : File) (producer : Bool) :
    Outcome (Option Event) :=
  match ReadConfig properties with
  | Outcome.exited code msg => Outcome.exited code msg
  | Outcome.panicked msg => Outcome.panicked msg
  | Outcome.returned _ =>
    if producer then Outcome.returned (some (Event.produced topic message))
    else Outcome.returned none

/-- How one outer iteration ends. -/
inductive Next where
  | again
  | dead
  | waiting
deriving DecidableEq, Repr

/-- Go `die(err)`: print the error, `os.Exit(1)`. -/
def die : List Event × Next := ([Event.exited 1], Next.dead)

/-- A panic unwinding `main` in the iteration on context `ctx`: every iteration so far,
numbered `0` to `ctx`, registered `defer ctx.Release()` on its own context, and the
deferred calls run newest first. -/
def unwind : Nat → List Event
  | 0 => [Event.released 0]
  | ctx + 1 => Event.released (ctx + 1) :: unwind ctx

/-- The part of the iteration after a card was found on reader `index`: connect,
transmit, publish, then wait for removal and release.  A panic inside `sendToKafka`
runs the deferred releases before the process ends. -/
def serveCard (c : Cycle) (ctx : Nat) (readers : List (List Char)) (index : Nat)
    (rest : List StatusChange) : List Event × Next :=
  if !c.connect then die
  else
    match c.transmit with
    | none => (Event.connected ctx index :: die.1, die.2)
    | some rsp =>
      let message := badgeMessage rsp c.now
      match sendToKafka "badge-reader".toList message c.properties c.producer with
      | Outcome.exited code _ => ([Event.connected ctx index, Event.exited code], Next.dead)
      | Outcome.panicked _ =>
        (Event.connected ctx index :: (unwind ctx ++ [Event.panicked]), Next.dead)
      | Outcome.returned none => (Event.connected ctx index :: die.1, die.2)
      | Outcome.returned (some ev) =>
        let sent := [Event.connected ctx index, ev]
        match waitUntilCardGone readers rest with
        | Wait.pending => (sent, Next.waiting)
        | Wait.failed _ => (sent ++ die.1, die.2)
        | Wait.returned _ _ _ =>
          (sent ++ [Event.disconnected index, Event.released ctx], Next.again)

/-- One outer iteration of the `for` in `main`, on the context numbered `ctx`. -/
def sessionCycle (c : Cycle) (ctx : Nat) : List Event × Next :=
  if !c.establish then die
  else
    let opened := [Event.established ctx, Event.deferred ctx]
    match c.readers with
    | none => (opened ++ die.1, die.2)
    | some readers =>
      if readers.length > 0 then
        match waitUntilCardPresent readers c.status with
        | Wait.pending => (opened, Next.waiting)
        | Wait.failed _ => (opened ++ die.1, die.2)
        | Wait.returned index _ rest =>
          let served := serveCard c ctx readers index rest
          (opened ++ served.1, served.2)
      else (opened, Next.again)

/-- Go `main`: the outer iterations in order, each on a freshly numbered context, until
the process ends or the script does.  `ctx` is the number of iterations already done,
which is also the number given to the context the next iteration establishes. -/
def main : List Cycle → Nat → List Event
  | [], _ => []
  | c :: cs, ctx =>
    match sessionCycle c ctx with
    | (events, Next.again) => events ++ main cs (ctx + 1)
    | (events, _) => events

/-- The contexts open after a trace: established and not yet released. -/
def openContexts : List Event → List Nat → List Nat
  | [], held => held
  | Event.established ctx :: evs, held => openContexts evs (held ++ [ctx])
  | Event.released ctx :: evs, held => openContexts evs (held.filter (· ≠ ctx))
  | _ :: evs, held => openContexts evs held

/-- The payloads handed to the broker in a trace, in order. -/
def producedPayloads : List Event → List (List Char)
  | [] => []
  | Event.produced _ payload :: evs => payload :: producedPayloads evs
  | _ :: evs => producedPayloads evs

/-- A status wait issued by `waitUntilCardGone` in this iteration returns an error: the
iteration found a card, connected, transmitted and published, and then the wait fails. -/
def removalWaitFails (c : Cycle) : Prop :=
  ∃ readers index rs rest rsp ev rest2, c.establish = true ∧ c.readers = some readers ∧
    readers.length > 0 ∧ waitUntilCardPresent readers c.status = Wait.returned index rs rest ∧
    c.connect = true ∧ c.transmit = some rsp ∧
    sendToKafka "badge-reader".toList (badgeMessage rsp c.now) c.properties c.producer
      = Outcome.returned (some ev) ∧
    waitUntilCardGone readers rest = Wait.failed rest2

/-- Two readers, the card lying on the second one: every driver answer reports reader 0
empty (`0x12`) and reader 1 present (`0x22`). -/
def cardStaysOnSecondReader (now : Int) : Cycle :=
  { establish := true
    readers := some [['r', '0'], ['r', '1']]
    status := [StatusChange.states [0x12, 0x22], StatusChange.states [0x12, 0x22]]
    connect := true
    transmit := some [0x04, 0x1A, 0x2B, 0x3C]
    now := now
    properties := File.content "bootstrap.servers=localhost:9092\n".toList
    producer := true }

/-- An iteration in which no reader is attached. -/
def noReaderAttached : Cycle :=
  { establish := true
    readers := some []
    status := []
    connect := true
    transmit := none
    now := 0
    properties := File.content []
    producer := true }

/-- One reader; the card is found, published, and the next status wait fails. -/
def removalWaitError : Cycle :=
  { establish := true
    readers := some [['r', '0']]
    status := [StatusChange.states [0x22], StatusChange.error]
    connect := true
    transmit := some [0x04, 0x1A, 0x2B, 0x3C]
    now := 1700000000123
    properties := File.content "bootstrap.servers=localhost:9092\n".toList
    producer := true }

/-- One reader; the first status wait fails. -/
def presenceWaitError : Cycle :=
  { establish := true
    readers := some [['r', '0']]
    status := [StatusChange.error]
    connect := true
    transmit := some [0x04, 0x1A, 0x2B, 0x3C]
    now := 1700000000123
    properties := File.content "bootstrap.servers=localhost:9092\n".toList
    producer := true }

/-- A card on the only reader while the properties file holds a line without `=`. -/
def malformedProperties : Cycle :=
  { establish := true
    readers := some [['r', '0']]
    status := [StatusChange.states [0x22]]
    connect := true
    transmit := some [0x04, 0x1A, 0x2B, 0x3C]
    now := 1700000000123
    properties := File.content "bootstrap.servers\n".toList
    producer := true }

/-! ## Predicates used in the statements -/

/-- The driver answers `answers`, taken in order by the removal loop starting at inner
index `i` over `n` readers, each report the reader under inspection as present. -/
def inspectedPresent : Nat → Nat → List (List Nat) → Bool
  | _, _, [] => true
  | n, i, es :: more =>
    (match es[i]? with
      | some e => e &&& StatePresent != 0
      | none => false)
      && inspectedPresent n (if i + 1 < n then i + 1 else 0) more

/-- A raw line of the properties file that `ReadConfig` can take in: it fits the
scanner's buffer and, once trimmed, is empty, a `#` comment, or holds an `=`. -/
def wellFormedLine (raw : List Char) : Bool :=
  decide (byteLength raw < MaxScanTokenSize) &&
    (HasPrefix (TrimSpace (dropCR raw)) ['#'] || (TrimSpace (dropCR raw)).isEmpty
      || (TrimSpace (dropCR raw)).contains '=')

/-- No slot of the slice carries the Present bit. -/
def noPresent (rs : List ReaderState) : Prop := ∀ r ∈ rs, cardPresent r = false

/-- The driver answer `es` shows no Present bit on any of the first `n` readers. -/
def quiet (n : Nat) (es : List Nat) : Prop :=
  ∀ j e, j < n → es[j]? = some e → e &&& StatePresent = 0

/-- Input that does not continue a number: empty, or starting with a non-digit. -/
def endsNumber (rest : List Char) : Prop :=
  ∀ c cs, rest = c :: cs → ¬ ('0' ≤ c ∧ c ≤ '9')

/-! ## Lemmas on the presence monitor -/

theorem presentScan_length (rs : List ReaderState) (i : Nat) :
    (presentScan rs i).2.length = rs.length := by
  induction rs generalizing i with
  | nil => simp [presentScan]
  | cons r rs ih =>
    unfold presentScan
    split
    · rfl
    · simp [ih]

theorem presentScan_none_iff (rs : List ReaderState) (i : Nat) :
    (presentScan rs i).1 = none ↔ noPresent rs := by
  induction rs generalizing i with
  | nil => simp [presentScan, noPresent]
  | cons r rs ih =>
    unfold presentScan
    by_cases h : cardPresent r = true
    · simp [h, noPresent]
    · simp only [h, Bool.false_eq_true, if_false]
      rw [ih (i + 1)]
      simp only [Bool.not_eq_true] at h
      simp [noPresent, h]

theorem presentScan_noPresent (rs : List ReaderState) (i : Nat) (h : noPresent rs) :
    noPresent (presentScan rs i).2 := by
  induction rs generalizing i with
  | nil => simp [presentScan, noPresent]
  | cons r rs ih =>
    have hr : cardPresent r = false := h r (List.mem_cons_self _ _)
    have hrs : noPresent rs := fun x hx => h x (List.mem_cons_of_mem _ hx)
    unfold presentScan
    simp only [hr, Bool.false_eq_true, if_false]
    intro x hx
    rcases List.mem_cons.1 hx with rfl | hx
    · simpa [cardPresent] using hr
    · exact ih (i + 1) hrs x hx

theorem presentScan_some (rs : List ReaderState) (i k : Nat)
    (h : (presentScan rs i).1 = some k) :
    ∃ p, k = i + p ∧ p < rs.length ∧
      (∃ r, (presentScan rs i).2[p]? = some r ∧ cardPresent r = true) ∧
      ∀ j r, j < p → rs[j]? = some r → cardPresent r = false := by
  induction rs generalizing i with
  | nil => simp [presentScan] at h
  | cons r rs ih =>
    unfold presentScan at h ⊢
    by_cases hr : cardPresent r = true
    · simp only [hr, if_true] at h ⊢
      simp only [Option.some.injEq] at h
      exact ⟨0, by omega, by simp, ⟨r, by simp, hr⟩, by intro j r hj; omega⟩
    · simp only [hr, Bool.false_eq_true, if_false] at h ⊢
      obtain ⟨p, hk, hp, ⟨r1, hr1, hpres⟩, hlow⟩ := ih (i + 1) h
      refine ⟨p + 1, by omega, by simp; omega, ⟨r1, by simpa using hr1, hpres⟩, ?_⟩
      intro j x hj hx
      cases j with
      | zero =>
        simp only [List.getElem?_cons_zero, Option.some.injEq] at hx
        subst hx
        simpa using hr
      | succ j =>
        simp only [List.getElem?_cons_succ] at hx
        exact hlow j x (by omega) hx

theorem presentScan_stop (rs : List ReaderState) (i k : Nat)
    (h : (presentScan rs i).1 = some k) :
    ∃ r, rs[k - i]? = some r ∧ cardPresent r = true := by
  induction rs generalizing i with
  | nil => simp [presentScan] at h
  | cons r rs ih =>
    unfold presentScan at h
    by_cases hr : cardPresent r = true
    · simp only [hr, if_true, Option.some.injEq] at h
      subst h
      exact ⟨r, by simp, hr⟩
    · simp only [hr, Bool.false_eq_true, if_false] at h
      obtain ⟨x, hx, hpres⟩ := ih (i + 1) h
      obtain ⟨p, hk, _⟩ := presentScan_some rs (i + 1) k h
      have : k - i = (k - (i + 1)) + 1 := by omega
      rw [this]
      exact ⟨x, by simpa using hx, hpres⟩

theorem presentScan_first (rs : List ReaderState) (i p : Nat) (r : ReaderState)
    (hlow : ∀ j x, j < p → rs[j]? = some x → cardPresent x = false)
    (hp : rs[p]? = some r) (hr : cardPresent r = true) :
    (presentScan rs i).1 = some (i + p) := by
  induction rs generalizing i p with
  | nil => simp at hp
  | cons x rs ih =>
    unfold presentScan
    cases p with
    | zero =>
      simp only [List.getElem?_cons_zero, Option.some.injEq] at hp
      subst hp
      simp [hr]
    | succ p =>
      have hx : cardPresent x = false := hlow 0 x (by omega) (by simp)
      simp only [hx, Bool.false_eq_true, if_false]
      simp only [List.getElem?_cons_succ] at hp
      have := ih (i + 1) p (fun j y hj hy => hlow (j + 1) y (by omega) (by simpa using hy)) hp
      rw [this]
      congr 1
      omega

theorem applyStates_length (rs : List ReaderState) (es : List Nat) :
    (applyStates rs es).length = rs.length := by
  induction rs generalizing es with
  | nil => simp [applyStates]
  | cons r rs ih => cases es <;> simp [applyStates, ih]

theorem applyStates_getElem? (rs : List ReaderState) (es : List Nat) (j : Nat) :
    (applyStates rs es)[j]? =
      (rs[j]?).map fun r =>
        match es[j]? with
        | some e => { r with EventState := e }
        | none => r := by
  induction rs generalizing es j with
  | nil => simp [applyStates]
  | cons r rs ih =>
    cases es with
    | nil => simp [applyStates]
    | cons e es =>
      cases j with
      | zero => simp [applyStates]
      | succ j => simp [applyStates, ih]

theorem noPresent_iff_getElem? (rs : List ReaderState) :
    noPresent rs ↔ ∀ (j : Nat) (r : ReaderState), rs[j]? = some r → cardPresent r = false := by
  constructor
  · intro h j r hj
    exact h r (List.getElem?_mem hj)
  · intro h r hr
    obtain ⟨j, hj⟩ := List.mem_iff_getElem?.1 hr
    exact h j r hj

theorem cardPresent_false_iff (r : ReaderState) :
    cardPresent r = false ↔ r.EventState &&& StatePresent = 0 := by
  simp [cardPresent]

theorem cardPresent_true_iff (r : ReaderState) :
    cardPresent r = true ↔ r.EventState &&& StatePresent ≠ 0 := by
  simp [cardPresent]

theorem applyStates_noPresent (rs : List ReaderState) (es : List Nat)
    (h : noPresent rs) (hq : quiet rs.length es) : noPresent (applyStates rs es) := by
  rw [noPresent_iff_getElem?] at h ⊢
  intro j r hj
  rw [applyStates_getElem?] at hj
  cases hrj : rs[j]? with
  | none => simp [hrj] at hj
  | some x =>
    have hjlt : j < rs.length := by
      by_contra hc
      have : rs[j]? = none := List.getElem?_eq_none (by omega)
      simp [this] at hrj
    simp only [hrj, Option.map_some'] at hj
    cases hej : es[j]? with
    | none =>
      simp only [hej, Option.some.injEq] at hj
      subst hj
      exact h j x hrj
    | some e =>
      simp only [hej, Option.some.injEq] at hj
      subst hj
      rw [cardPresent_false_iff]
      exact hq j e hjlt hej

/-- In a slice that had no Present bit before the driver wrote `es`, a Present bit on
slot `p` is the one the driver wrote there. -/
theorem applyStates_present_from (rs : List ReaderState) (es : List Nat) (p : Nat)
    (r : ReaderState) (h : noPresent rs) (hp : (applyStates rs es)[p]? = some r)
    (hr : cardPresent r = true) : es[p]? = some r.EventState := by
  rw [applyStates_getElem?] at hp
  cases hrp : rs[p]? with
  | none => simp [hrp] at hp
  | some x =>
    simp only [hrp, Option.map_some'] at hp
    cases hep : es[p]? with
    | none =>
      simp only [hep, Option.some.injEq] at hp
      subst hp
      have := (noPresent_iff_getElem? rs).1 h p x hrp
      simp [this] at hr
    | some e =>
      simp only [hep, Option.some.injEq] at hp
      subst hp
      rfl

theorem newReaderStates_noPresent (readers : List (List Char)) :
    noPresent (newReaderStates readers) := by
  intro r hr
  simp only [newReaderStates, List.mem_map] at hr
  obtain ⟨name, _, rfl⟩ := hr
  simp [cardPresent]

theorem newReaderStates_length (readers : List (List Char)) :
    (newReaderStates readers).length = readers.length := by
  simp [newReaderStates]

theorem presentLoop_of_scan_some (rs rs1 : List ReaderState) (script : List StatusChange)
    (k : Nat) (h : presentScan rs 0 = (some k, rs1)) :
    presentLoop rs script = Wait.returned k rs1 script := by
  cases script <;> simp [presentLoop, h]

theorem presentLoop_of_scan_none (rs rs1 : List ReaderState) (es : List Nat)
    (rest : List StatusChange) (h : presentScan rs 0 = (none, rs1)) :
    presentLoop rs (StatusChange.states es :: rest) = presentLoop (applyStates rs1 es) rest := by
  simp [presentLoop, h]

theorem presentLoop_returned (script : List StatusChange) :
    ∀ (rs rs2 : List ReaderState) (i : Nat) (rest : List StatusChange),
      presentLoop rs script = Wait.returned i rs2 rest →
      i < rs.length ∧ (∃ r, rs2[i]? = some r ∧ cardPresent r = true) ∧
        ((¬ noPresent rs ∧ script = rest) ∨
          ∃ pre es e, script = pre ++ StatusChange.states es :: rest ∧
            es[i]? = some e ∧ e &&& StatePresent ≠ 0) := by
  induction script with
  | nil =>
    intro rs rs2 i rest h
    cases hscan : presentScan rs 0 with
    | mk o rs1 =>
      cases o with
      | none => simp [presentLoop, hscan] at h
      | some k =>
        rw [presentLoop_of_scan_some rs rs1 [] k hscan] at h
        simp only [Wait.returned.injEq] at h
        obtain ⟨rfl, rfl, rfl⟩ := h
        have h1 : (presentScan rs 0).1 = some k := by rw [hscan]
        obtain ⟨p, hk, hp, ⟨r, hr, hpres⟩, _⟩ := presentScan_some rs 0 k h1
        have hkp : k = p := by omega
        subst hkp
        refine ⟨hp, ⟨r, by simpa [hscan] using hr, hpres⟩, Or.inl ⟨?_, rfl⟩⟩
        intro hno
        have := (presentScan_none_iff rs 0).2 hno
        simp [h1] at this
  | cons a script ih =>
    intro rs rs2 i rest h
    cases hscan : presentScan rs 0 with
    | mk o rs1 =>
      cases o with
      | some k =>
        rw [presentLoop_of_scan_some rs rs1 _ k hscan] at h
        simp only [Wait.returned.injEq] at h
        obtain ⟨rfl, rfl, rfl⟩ := h
        have h1 : (presentScan rs 0).1 = some k := by rw [hscan]
        obtain ⟨p, hk, hp, ⟨r, hr, hpres⟩, _⟩ := presentScan_some rs 0 k h1
        have hkp : k = p := by omega
        subst hkp
        refine ⟨hp, ⟨r, by simpa [hscan] using hr, hpres⟩, Or.inl ⟨?_, rfl⟩⟩
        intro hno
        have := (presentScan_none_iff rs 0).2 hno
        simp [h1] at this
      | none =>
        have h1 : (presentScan rs 0).1 = none := by rw [hscan]
        have hno : noPresent rs := (presentScan_none_iff rs 0).1 h1
        have hno1 : noPresent rs1 := by
          have := presentScan_noPresent rs 0 hno
          rwa [hscan] at this
        have hlen1 : rs1.length = rs.length := by
          have := presentScan_length rs 0
          rwa [hscan] at this
        cases a with
        | error => simp [presentLoop, hscan] at h
        | states es =>
          rw [presentLoop_of_scan_none rs rs1 es script hscan] at h
          obtain ⟨hi, hres, hor⟩ := ih (applyStates rs1 es) rs2 i rest h
          rw [applyStates_length, hlen1] at hi
          refine ⟨hi, hres, Or.inr ?_⟩
          rcases hor with ⟨hnot, hrest⟩ | ⟨pre, es2, e, hscript, he, hbit⟩
          · subst hrest
            -- the scan of the freshly written slice found slot `i`
            have hscan2 : (presentScan (applyStates rs1 es) 0).1 ≠ none := by
              intro hc
              exact hnot ((presentScan_none_iff _ 0).1 hc)
            cases hs2 : presentScan (applyStates rs1 es) 0 with
            | mk o2 rs3 =>
              cases o2 with
              | none => simp [hs2] at hscan2
              | some k =>
                rw [presentLoop_of_scan_some _ rs3 _ k hs2] at h
                simp only [Wait.returned.injEq] at h
                obtain ⟨rfl, rfl, _⟩ := h
                have h3 : (presentScan (applyStates rs1 es) 0).1 = some k := by rw [hs2]
                obtain ⟨p, hk, hp, ⟨r, hr, hpres⟩, _⟩ := presentScan_some _ 0 k h3
                have hkp : k = p := by omega
                subst hkp
                -- slot `k` is untouched by the scan that stopped on it
                obtain ⟨r0, hr0, hpres0⟩ : ∃ r0, (applyStates rs1 es)[k]? = some r0 ∧
                    cardPresent r0 = true := presentScan_stop _ 0 k h3
                have := applyStates_present_from rs1 es k r0 hno1 hr0 hpres0
                exact ⟨[], es, r0.EventState, rfl, this, (cardPresent_true_iff r0).1 hpres0⟩
          · exact ⟨StatusChange.states es :: pre, es2, e, by simp [hscript], he, hbit⟩

theorem presentLoop_quiet (pre : List (List Nat)) :
    ∀ (rs : List ReaderState) (tail : List StatusChange), noPresent rs →
      (∀ es ∈ pre, quiet rs.length es) →
      ∃ rs1, noPresent rs1 ∧ rs1.length = rs.length ∧
        presentLoop rs (pre.map StatusChange.states ++ tail) = presentLoop rs1 tail := by
  induction pre with
  | nil =>
    intro rs tail hno _
    exact ⟨rs, hno, rfl, by simp⟩
  | cons es pre ih =>
    intro rs tail hno hq
    cases hscan : presentScan rs 0 with
    | mk o rs1 =>
      have hfst : (presentScan rs 0).1 = none := (presentScan_none_iff rs 0).2 hno
      have ho : o = none := by rw [hscan] at hfst; exact hfst
      subst ho
      have hno1 : noPresent rs1 := by
        have := presentScan_noPresent rs 0 hno
        rwa [hscan] at this
      have hlen1 : rs1.length = rs.length := by
        have := presentScan_length rs 0
        rwa [hscan] at this
      have hq1 : quiet rs1.length es := by
        rw [hlen1]
        exact hq es (List.mem_cons_self _ _)
      have hno2 := applyStates_noPresent rs1 es hno1 hq1
      have hlen2 : (applyStates rs1 es).length = rs.length := by
        rw [applyStates_length, hlen1]
      obtain ⟨rs3, hno3, hlen3, heq⟩ := ih (applyStates rs1 es) tail hno2 (by
        intro es2 hes2
        rw [hlen2]
        exact hq es2 (List.mem_cons_of_mem _ hes2))
      refine ⟨rs3, hno3, by rw [hlen3, hlen2], ?_⟩
      simp only [List.map_cons, List.cons_append]
      rw [presentLoop_of_scan_none rs rs1 es _ hscan, heq]

theorem presentLoop_first_present (rs : List ReaderState) (es : List Nat)
    (post : List StatusChange) (k e : Nat) (hno : noPresent rs) (hk : k < rs.length)
    (hke : es[k]? = some e) (hbit : e &&& StatePresent ≠ 0)
    (hlow : ∀ j x, j < k → es[j]? = some x → x &&& StatePresent = 0) :
    ∃ rs2, presentLoop rs (StatusChange.states es :: post) = Wait.returned k rs2 post := by
  cases hscan : presentScan rs 0 with
  | mk o rs1 =>
    have hfst : (presentScan rs 0).1 = none := (presentScan_none_iff rs 0).2 hno
    have ho : o = none := by rw [hscan] at hfst; exact hfst
    subst ho
    have hno1 : noPresent rs1 := by
      have := presentScan_noPresent rs 0 hno
      rwa [hscan] at this
    have hlen1 : rs1.length = rs.length := by
      have := presentScan_length rs 0
      rwa [hscan] at this
    rw [presentLoop_of_scan_none rs rs1 es post hscan]
    obtain ⟨x, hx⟩ : ∃ x, rs1[k]? = some x := by
      have : k < rs1.length := by omega
      exact ⟨rs1[k], List.getElem?_eq_getElem this⟩
    have hslot : (applyStates rs1 es)[k]? = some { x with EventState := e } := by
      rw [applyStates_getElem?, hx, hke]
      rfl
    have hlow2 : ∀ j y, j < k → (applyStates rs1 es)[j]? = some y → cardPresent y = false := by
      intro j y hj hy
      rw [applyStates_getElem?] at hy
      cases hrj : rs1[j]? with
      | none => simp [hrj] at hy
      | some z =>
        simp only [hrj, Option.map_some'] at hy
        cases hej : es[j]? with
        | none =>
          simp only [hej, Option.some.injEq] at hy
          subst hy
          exact (noPresent_iff_getElem? rs1).1 hno1 j z hrj
        | some w =>
          simp only [hej, Option.some.injEq] at hy
          subst hy
          rw [cardPresent_false_iff]
          exact hlow j w hj hej
    have hfirst := presentScan_first (applyStates rs1 es) 0 k _ hlow2 hslot
      ((cardPresent_true_iff _).2 hbit)
    cases hs2 : presentScan (applyStates rs1 es) 0 with
    | mk o2 rs3 =>
      rw [hs2] at hfirst
      simp only [Nat.zero_add] at hfirst
      subst hfirst
      exact ⟨rs3, presentLoop_of_scan_some _ rs3 post k hs2⟩

/-- After answers without a present reader, the first answer with one makes
`waitUntilCardPresent` return the lowest index present in it. -/
theorem waitUntilCardPresent_first_answer (readers : List (List Char))
    (pre : List (List Nat)) (es : List Nat) (post : List StatusChange) (k e : Nat)
    (hpre : ∀ es0 ∈ pre, ∀ j x, j < readers.length → es0[j]? = some x → x &&& StatePresent = 0)
    (hk : k < readers.length) (hke : es[k]? = some e) (hbit : e &&& StatePresent ≠ 0)
    (hlow : ∀ j x, j < k → es[j]? = some x → x &&& StatePresent = 0) :
    ∃ rs, waitUntilCardPresent readers
        (pre.map StatusChange.states ++ StatusChange.states es :: post)
      = Wait.returned k rs post := by
  unfold waitUntilCardPresent
  obtain ⟨rs1, hno1, hlen1, heq⟩ := presentLoop_quiet pre (newReaderStates readers)
    (StatusChange.states es :: post) (newReaderStates_noPresent readers) (by
      intro es0 hes0
      rw [newReaderStates_length]
      exact hpre es0 hes0)
  rw [heq]
  rw [newReaderStates_length] at hlen1
  exact presentLoop_first_present rs1 es post k e hno1 (by omega) hke hbit hlow

/-! ## Presence monitor: the claims -/

/-- C2: when `waitUntilCardPresent` returns without error, the returned index lies inside
the reader list, the observation of that reader carries the Present bit at that moment,
and the call consumed a driver answer that reported this bit for that reader: it does not
return before an observation carries the Present bit. -/
theorem waitUntilCardPresent_returns_present (readers : List (List Char))
    (script : List StatusChange) (i : Nat) (rs : List ReaderState) (rest : List StatusChange)
    (h : waitUntilCardPresent readers script = Wait.returned i rs rest) :
    i < readers.length ∧
      (∃ r, rs[i]? = some r ∧ r.EventState &&& StatePresent ≠ 0) ∧
      ∃ pre es e, script = pre ++ StatusChange.states es :: rest ∧
        es[i]? = some e ∧ e &&& StatePresent ≠ 0 := by
  unfold waitUntilCardPresent at h
  obtain ⟨hi, ⟨r, hr, hpres⟩, hor⟩ := presentLoop_returned script _ rs i rest h
  rw [newReaderStates_length] at hi
  refine ⟨hi, ⟨r, hr, (cardPresent_true_iff r).1 hpres⟩, ?_⟩
  rcases hor with ⟨hnot, _⟩ | hex
  · exact absurd (newReaderStates_noPresent readers) hnot
  · exact hex

/-- C2, at one reader whose first driver answer reports a card. -/
theorem waitUntilCardPresent_returns_present_witness :
    0 < [['r', '0']].length ∧
      (∃ r, [({ Reader := ['r', '0'], CurrentState := 0, EventState := 0x22 } : ReaderState)][0]?
          = some r ∧ r.EventState &&& StatePresent ≠ 0) ∧
      ∃ pre es e, [StatusChange.states [0x22]] = pre ++ StatusChange.states es :: [] ∧
        es[0]? = some e ∧ e &&& StatePresent ≠ 0 :=
  waitUntilCardPresent_returns_present [['r', '0']] [StatusChange.states [0x22]] 0
    [{ Reader := ['r', '0'], CurrentState := 0, EventState := 0x22 }] [] (by decide)

/-- C3: let the driver answers start with answers in which no reader is present,
followed by an answer `es` in which some reader is; then `waitUntilCardPresent` returns
on that answer, with the lowest index among the readers present in it, however many
readers `es` reports present. -/
theorem waitUntilCardPresent_lowest_index (readers : List (List Char))
    (pre : List (List Nat)) (es : List Nat) (post : List StatusChange) (k e : Nat)
    (hpre : ∀ es0 ∈ pre, ∀ j x, j < readers.length → es0[j]? = some x → x &&& StatePresent = 0)
    (hk : k < readers.length) (hke : es[k]? = some e) (hbit : e &&& StatePresent ≠ 0)
    (hlow : ∀ j x, j < k → es[j]? = some x → x &&& StatePresent = 0) :
    ∃ rs, waitUntilCardPresent readers
        (pre.map StatusChange.states ++ StatusChange.states es :: post)
      = Wait.returned k rs post :=
  waitUntilCardPresent_first_answer readers pre es post k e hpre hk hke hbit hlow

/-- C3, at three readers: one quiet answer, then an answer in which readers 1 and 2
become present together; reader 1 is returned. -/
theorem waitUntilCardPresent_lowest_index_witness :
    ∃ rs, waitUntilCardPresent [['a'], ['b'], ['c']]
        ([[0x12, 0x12, 0x12]].map StatusChange.states
          ++ StatusChange.states [0x12, 0x22, 0x22] :: [StatusChange.error])
      = Wait.returned 1 rs [StatusChange.error] :=
  waitUntilCardPresent_lowest_index [['a'], ['b'], ['c']] [[0x12, 0x12, 0x12]]
    [0x12, 0x22, 0x22] [StatusChange.error] 1 0x22
    (by
      intro es0 hes0 j x hj hx
      simp only [List.mem_singleton] at hes0
      subst hes0
      simp only [List.length_cons, List.length_nil] at hj
      interval_cases j <;> simp at hx <;> subst hx <;> decide)
    (by decide) (by decide) (by decide)
    (by
      intro j x hj hx
      interval_cases j
      simp at hx
      subst hx
      decide)

/-! ## Removal monitor: what a return means -/

/-- A return of the removal loop gives the index of the slot it was inspecting, and that
slot has its Present bit clear at that moment. -/
theorem goneLoop_returned_clear (script : List StatusChange) :
    ∀ (rs rs2 : List ReaderState) (i k : Nat) (rest : List StatusChange),
      goneLoop rs i script = Wait.returned k rs2 rest →
      k < rs.length ∧ ∃ r, rs2[k]? = some r ∧ r.EventState &&& StatePresent = 0 := by
  induction script with
  | nil => intro rs rs2 i k rest h; simp [goneLoop] at h
  | cons a script ih =>
    intro rs rs2 i k rest h
    cases a with
    | error => simp [goneLoop] at h
    | states es =>
      simp only [goneLoop] at h
      cases hslot : (applyStates rs es)[i]? with
      | none => simp [hslot] at h
      | some r =>
        simp only [hslot] at h
        by_cases hclear : r.EventState &&& StatePresent = 0
        · simp only [hclear, if_true, Wait.returned.injEq] at h
          obtain ⟨rfl, rfl, _⟩ := h
          have hlt : i < (applyStates rs es).length := by
            by_contra hc
            have : (applyStates rs es)[i]? = none := List.getElem?_eq_none (by omega)
            simp [this] at hslot
          rw [applyStates_length] at hlt
          exact ⟨hlt, r, hslot, hclear⟩
        · simp only [hclear, if_false] at h
          obtain ⟨hk, hres⟩ := ih _ rs2 _ k rest h
          rw [List.length_set, applyStates_length] at hk
          exact ⟨hk, hres⟩

/-- What `waitUntilCardGone` does guarantee: the returned index lies inside the reader
list and that reader's Present bit is clear at the moment of return.  With a single
reader this is the reader the card was detected on. -/
theorem waitUntilCardGone_returned_clear (readers : List (List Char))
    (script : List StatusChange) (k : Nat) (rs : List ReaderState) (rest : List StatusChange)
    (h : waitUntilCardGone readers script = Wait.returned k rs rest) :
    k < readers.length ∧ ∃ r, rs[k]? = some r ∧ r.EventState &&& StatePresent = 0 := by
  unfold waitUntilCardGone at h
  cases readers with
  | nil => simp at h
  | cons name names =>
    simp only at h
    have := goneLoop_returned_clear script _ rs 0 k rest h
    rwa [newReaderStates_length] at this

/-! ## Removal monitor and session loop: behaviour on concrete runs -/

/-- C4, evaluated: with two readers and the card on reader 1, `waitUntilCardGone`
returns on the first driver answer, with index 0, because reader 0 is empty; reader 1
carries the Present bit in that answer and in the slice at the moment of return. -/
theorem waitUntilCardGone_returns_while_present :
    waitUntilCardGone [['r', '0'], ['r', '1']] [StatusChange.states [0x12, 0x22]]
        = Wait.returned 0
            [{ Reader := ['r', '0'], CurrentState := 0, EventState := 0x12 },
             { Reader := ['r', '1'], CurrentState := 0, EventState := 0x22 }] []
      ∧ 0x22 &&& StatePresent ≠ 0 := by
  decide

/-- C1, evaluated: two readers, the card left on reader 1 (every driver answer of both
iterations reports it present); `main` hands two events for it to the broker. -/
theorem main_publishes_twice_for_one_swipe :
    (∀ a ∈ (cardStaysOnSecondReader 1000).status ++ (cardStaysOnSecondReader 1005).status,
        a = StatusChange.states [0x12, 0x22]) ∧
      0x22 &&& StatePresent ≠ 0 ∧
      main [cardStaysOnSecondReader 1000, cardStaysOnSecondReader 1005] 0 =
        [Event.established 0, Event.deferred 0, Event.connected 0 1,
         Event.produced "badge-reader".toList
           "\x7b\"badge\":\"041a2b3c\",\"time\":1000\x7d".toList,
         Event.disconnected 1, Event.released 0,
         Event.established 1, Event.deferred 1, Event.connected 1 1,
         Event.produced "badge-reader".toList
           "\x7b\"badge\":\"041a2b3c\",\"time\":1005\x7d".toList,
         Event.disconnected 1, Event.released 1] := by
  decide

/-- C10, evaluated: after two iterations in which `ListReaders` returns no reader, both
contexts have been established, neither has been released, and two are open. -/
theorem main_leaks_context_without_readers :
    main [noReaderAttached, noReaderAttached] 0 =
        [Event.established 0, Event.deferred 0, Event.established 1, Event.deferred 1]
      ∧ openContexts (main [noReaderAttached, noReaderAttached] 0) [] = [0, 1] := by
  decide

/-- C8, evaluated: a properties file whose only line holds no `=` makes `ReadConfig`
index past the end of the split result: a runtime panic, not the exit-code-1 path. -/
theorem ReadConfig_panics_without_equals :
    ReadConfig (File.content "bootstrap.servers\n".toList)
      = Outcome.panicked "runtime error: index out of range [1] with length 1".toList := by
  decide

/-- C9, evaluated: on a line with two `=`, `ReadConfig` binds the key to the text between
the first and the second `=`, not to everything after the first. -/
theorem ReadConfig_truncates_value_at_second_equals :
    ReadConfig (File.content "sasl.jaas.config=plain user=alice\n".toList)
        = Outcome.returned [("sasl.jaas.config".toList, "plain user".toList)]
      ∧ ConfigMap.get [("sasl.jaas.config".toList, "plain user".toList)]
          "sasl.jaas.config".toList ≠ some "plain user=alice".toList := by
  decide

/-! ## A failing status wait -/

/-- C5 as stated fails: the status wait issued by `waitUntilCardGone` returns an error,
the process exits with code 1, and the event of that swipe has already been produced. -/
theorem removal_wait_error_after_publish :
    removalWaitFails removalWaitError ∧
      main [removalWaitError] 0 =
        [Event.established 0, Event.deferred 0, Event.connected 0 0,
         Event.produced "badge-reader".toList
           "\x7b\"badge\":\"041a2b3c\",\"time\":1700000000123\x7d".toList,
         Event.exited 1] ∧
      producedPayloads (main [removalWaitError] 0) ≠ [] := by
  refine ⟨⟨[['r', '0']], 0, [⟨['r', '0'], 0, 0x22⟩], [StatusChange.error],
    [0x04, 0x1A, 0x2B, 0x3C],
    Event.produced "badge-reader".toList (badgeMessage [0x04, 0x1A, 0x2B, 0x3C] 1700000000123),
    [], ?_⟩, ?_, ?_⟩
  · exact ⟨rfl, rfl, by decide, by decide, rfl, rfl, by decide, by decide⟩
  · decide
  · decide

/-- A driver error answering the wait of the presence loop, on a slice without a
Present bit, makes the loop fail. -/
theorem presentLoop_error (rs : List ReaderState) (post : List StatusChange)
    (hno : noPresent rs) : presentLoop rs (StatusChange.error :: post) = Wait.failed post := by
  have hfst : (presentScan rs 0).1 = none := (presentScan_none_iff rs 0).2 hno
  cases hscan : presentScan rs 0 with
  | mk o rs1 =>
    rw [hscan] at hfst
    simp only at hfst
    subst hfst
    simp [presentLoop, hscan]

/-- A driver error that follows answers without a present reader makes
`waitUntilCardPresent` return the error. -/
theorem waitUntilCardPresent_error (readers : List (List Char)) (pre : List (List Nat))
    (post : List StatusChange) (hpre : ∀ es0 ∈ pre, quiet readers.length es0) :
    waitUntilCardPresent readers (pre.map StatusChange.states ++ StatusChange.error :: post)
      = Wait.failed post := by
  unfold waitUntilCardPresent
  obtain ⟨rs1, hno1, _, heq⟩ := presentLoop_quiet pre (newReaderStates readers)
    (StatusChange.error :: post) (newReaderStates_noPresent readers) (by
      intro es0 hes0
      rw [newReaderStates_length]
      exact hpre es0 hes0)
  rw [heq]
  exact presentLoop_error rs1 post hno1

/-- A driver error that follows answers in which the inspected reader stays present
makes the removal loop fail. -/
theorem goneLoop_error (gpre : List (List Nat)) :
    ∀ (rs : List ReaderState) (i : Nat) (post : List StatusChange), i < rs.length →
      inspectedPresent rs.length i gpre = true →
      goneLoop rs i (gpre.map StatusChange.states ++ StatusChange.error :: post)
        = Wait.failed post := by
  induction gpre with
  | nil => intro rs i post _ _; simp [goneLoop]
  | cons es gpre ih =>
    intro rs i post hi hins
    simp only [inspectedPresent, Bool.and_eq_true] at hins
    obtain ⟨hslot, hmore⟩ := hins
    cases hes : es[i]? with
    | none => simp [hes] at hslot
    | some e =>
      simp only [hes, bne_iff_ne, ne_eq] at hslot
      have hx : rs[i]? = some rs[i] := List.getElem?_eq_getElem hi
      have hget : (applyStates rs es)[i]? = some { rs[i] with EventState := e } := by
        rw [applyStates_getElem?, hx, hes]
        rfl
      simp only [List.map_cons, List.cons_append, goneLoop, hget, hslot, if_false]
      have hlen : ((applyStates rs es).set i
          { rs[i] with EventState := e, CurrentState := e }).length = rs.length := by
        rw [List.length_set, applyStates_length]
      rw [applyStates_length]
      have hnext : (if i + 1 < rs.length then i + 1 else 0) < rs.length := by
        split <;> omega
      have := ih ((applyStates rs es).set i { rs[i] with EventState := e, CurrentState := e })
        (if i + 1 < rs.length then i + 1 else 0) post (by rw [hlen]; exact hnext)
        (by rw [hlen]; exact hmore)
      exact this

/-- A driver error that follows answers in which the inspected reader stays present
makes `waitUntilCardGone` return the error. -/
theorem waitUntilCardGone_error (readers : List (List Char)) (gpre : List (List Nat))
    (post : List StatusChange) (hn : readers.length > 0)
    (hins : inspectedPresent readers.length 0 gpre = true) :
    waitUntilCardGone readers (gpre.map StatusChange.states ++ StatusChange.error :: post)
      = Wait.failed post := by
  unfold waitUntilCardGone
  cases readers with
  | nil => simp at hn
  | cons name names =>
    simp only
    exact goneLoop_error gpre _ 0 post (by rw [newReaderStates_length]; exact hn)
      (by rw [newReaderStates_length]; exact hins)

theorem Split_ne_nil (s : List Char) (sep : Char) : Split s sep ≠ [] := by
  cases s with
  | nil => simp [Split]
  | cons c cs =>
    unfold Split
    split
    · simp
    · split <;> simp

theorem Split_of_mem (s : List Char) (sep : Char) (h : sep ∈ s) :
    ∃ k v more, Split s sep = k :: v :: more := by
  induction s with
  | nil => simp at h
  | cons c cs ih =>
    unfold Split
    by_cases hc : c = sep
    · simp only [hc, if_true]
      cases hsp : Split cs sep with
      | nil => exact absurd hsp (Split_ne_nil cs sep)
      | cons x xs => exact ⟨[], x, xs, rfl⟩
    · simp only [hc, if_false]
      have hmem : sep ∈ cs := by
        rcases List.mem_cons.1 h with h1 | h1
        · exact absurd h1.symm hc
        · exact h1
      obtain ⟨k, v, more, hk⟩ := ih hmem
      rw [hk]
      exact ⟨c :: k, v, more, rfl⟩

/-- On well-formed lines the scan of the properties file returns a map. -/
theorem scanConfig_returns (raws : List (List Char)) :
    ∀ m : ConfigMap, (∀ raw ∈ raws, wellFormedLine raw = true) →
      ∃ conf, scanConfig raws m = Outcome.returned conf := by
  induction raws with
  | nil => intro m _; exact ⟨m, rfl⟩
  | cons raw raws ih =>
    intro m h
    have hraw := h raw (List.mem_cons_self _ _)
    have hrest : ∀ r ∈ raws, wellFormedLine r = true :=
      fun r hr => h r (List.mem_cons_of_mem _ hr)
    simp only [wellFormedLine, Bool.and_eq_true, decide_eq_true_eq, Bool.or_eq_true,
      List.isEmpty_iff] at hraw
    obtain ⟨hlen, hline⟩ := hraw
    unfold scanConfig
    simp only [Nat.not_le.2 hlen, if_false]
    by_cases hcond : (!HasPrefix (TrimSpace (dropCR raw)) ['#'] &&
        (TrimSpace (dropCR raw)).length != 0) = true
    · simp only [hcond, if_true]
      simp only [Bool.and_eq_true, Bool.not_eq_true', bne_iff_ne, ne_eq] at hcond
      have hmem : '=' ∈ TrimSpace (dropCR raw) := by
        rcases hline with (hp | he) | hm
        · rw [hcond.1] at hp
          cases hp
        · rw [he] at hcond
          simp at hcond
        · simpa using hm
      obtain ⟨k, v, more, hk⟩ := Split_of_mem _ '=' hmem
      rw [hk]
      exact ih _ hrest
    · simp only [hcond, Bool.false_eq_true, if_false]
      exact ih _ hrest

/-- With a well-formed properties file and a producer that can be created,
`sendToKafka` hands the message to the broker and returns `nil`. -/
theorem sendToKafka_produces (topic message text : List Char)
    (h : ∀ raw ∈ rawLines text, wellFormedLine raw = true) :
    sendToKafka topic message (File.content text) true
      = Outcome.returned (some (Event.produced topic message)) := by
  obtain ⟨conf, hconf⟩ := scanConfig_returns (rawLines text) [] h
  simp [sendToKafka, ReadConfig, hconf]

/-- C5, amended: a driver error answering a status wait ends the process with exit code
1 and nothing is produced afterwards.  When the error answers a wait of
`waitUntilCardPresent` (every earlier answer showed no card), no event has been produced
in that iteration; when it answers a wait of `waitUntilCardGone` (a card was found on
reader `k` and published, and every later answer showed the inspected reader present),
the event of that iteration has already been produced before the failure. -/
theorem wait_error_exits_with_code_one (c : Cycle) (cs : List Cycle) (ctx : Nat)
    (readers : List (List Char)) (pre : List (List Nat)) (post : List StatusChange)
    (he : c.establish = true) (hr : c.readers = some readers) (hn : readers.length > 0)
    (hquiet : ∀ es0 ∈ pre, quiet readers.length es0) :
    (c.status = pre.map StatusChange.states ++ StatusChange.error :: post →
        main (c :: cs) ctx = [Event.established ctx, Event.deferred ctx, Event.exited 1]) ∧
      (∀ (es : List Nat) (k e : Nat) (gpre : List (List Nat)) (rsp : List Byte)
          (text : List Char),
        c.status = pre.map StatusChange.states ++ StatusChange.states es ::
          (gpre.map StatusChange.states ++ StatusChange.error :: post) →
        k < readers.length → es[k]? = some e → e &&& StatePresent ≠ 0 →
        (∀ j x, j < k → es[j]? = some x → x &&& StatePresent = 0) →
        inspectedPresent readers.length 0 gpre = true →
        c.connect = true → c.transmit = some rsp →
        c.properties = File.content text →
        (∀ raw ∈ rawLines text, wellFormedLine raw = true) → c.producer = true →
        main (c :: cs) ctx =
          [Event.established ctx, Event.deferred ctx, Event.connected ctx k,
           Event.produced "badge-reader".toList (badgeMessage rsp c.now),
           Event.exited 1]) := by
  constructor
  · intro hst
    have hw := waitUntilCardPresent_error readers pre post hquiet
    rw [← hst] at hw
    simp [main, sessionCycle, he, hr, hn, hw, die]
  · intro es k e gpre rsp text hst hk hke hbit hlow hins hc ht hp hwf hprod
    obtain ⟨rs, hw⟩ := waitUntilCardPresent_first_answer readers pre es
      (gpre.map StatusChange.states ++ StatusChange.error :: post) k e hquiet hk hke hbit hlow
    rw [← hst] at hw
    have hg := waitUntilCardGone_error readers gpre post hn hins
    have hs := sendToKafka_produces "badge-reader".toList (badgeMessage rsp c.now) text hwf
    unfold main sessionCycle serveCard
    rw [hr]
    simp only [he, hn, hw, hc, ht, hp, hprod, hs, hg, die]
    simp

/-- C5, amended, on two runs: an error answering the first wait after one quiet answer,
and, with two readers and the card on the second, an error answering the third wait of
the removal phase. -/
theorem wait_error_exits_with_code_one_witness :
    main [{ presenceWaitError with
            readers := some [['r', '0'], ['r', '1']]
            status := [StatusChange.states [0x12, 0x12], StatusChange.error] }] 0
        = [Event.established 0, Event.deferred 0, Event.exited 1] ∧
      main [{ removalWaitError with
              readers := some [['r', '0'], ['r', '1']]
              status := [StatusChange.states [0x12, 0x12], StatusChange.states [0x22, 0x22],
                StatusChange.states [0x22, 0x22], StatusChange.states [0x22, 0x22],
                StatusChange.error] }] 0
        = [Event.established 0, Event.deferred 0, Event.connected 0 0,
           Event.produced "badge-reader".toList
             (badgeMessage [0x04, 0x1A, 0x2B, 0x3C] 1700000000123),
           Event.exited 1] :=
  have hq : ∀ es0 ∈ [[0x12, 0x12]], quiet [['r', '0'], ['r', '1']].length es0 := by
    intro es0 hes0 j x hj hx
    simp only [List.mem_singleton] at hes0
    subst hes0
    simp only [List.length_cons, List.length_nil] at hj
    interval_cases j <;> simp at hx <;> subst hx <;> decide
  ⟨(wait_error_exits_with_code_one _ [] 0 [['r', '0'], ['r', '1']] [[0x12, 0x12]] []
      rfl rfl (by decide) hq).1 rfl,
    (wait_error_exits_with_code_one _ [] 0 [['r', '0'], ['r', '1']] [[0x12, 0x12]] []
      rfl rfl (by decide) hq).2 [0x22, 0x22] 0 0x22 [[0x22, 0x22], [0x22, 0x22]]
      [0x04, 0x1A, 0x2B, 0x3C] "bootstrap.servers=localhost:9092\n".toList
      rfl (by decide) (by decide) (by decide) (by intro j x hj; omega) (by decide)
      rfl rfl rfl (by decide) rfl⟩

/-- A panic on the way: after two iterations without a reader, a properties file with
a line lacking `=` makes `sendToKafka` panic; the three deferred releases run, newest
first, and the process ends without an event produced. -/
theorem main_panic_runs_deferred_releases :
    main [noReaderAttached, noReaderAttached, malformedProperties] 0 =
      [Event.established 0, Event.deferred 0, Event.established 1, Event.deferred 1,
       Event.established 2, Event.deferred 2, Event.connected 2 0,
       Event.released 2, Event.released 1, Event.released 0, Event.panicked] := by
  decide

/-- A read error after a successful open ends `ReadConfig` with exit code 1 and the
message of the read path. -/
theorem ReadConfig_read_error :
    ReadConfig (File.failing [] "read ./properties: is a directory".toList)
      = Outcome.exited 1 "Failed to read file: read ./properties: is a directory".toList := by
  decide

/-! ## Identity and serialisation: lemmas -/

theorem hextable_getD_mem (i : Nat) (h : i < 16) : hextable.getD i '0' ∈ hextable := by
  interval_cases i <;> decide

theorem hexDigitValue_getD (i : Nat) (h : i < 16) :
    hexDigitValue (hextable.getD i '0') = some i := by
  interval_cases i <;> decide

theorem escapeChar_hex (c : Char) (h : c ∈ hextable) : escapeChar c = [c] := by
  simp only [hextable, List.mem_cons, List.mem_singleton, List.not_mem_nil, or_false] at h
  rcases h with rfl | rfl | rfl | rfl | rfl | rfl | rfl | rfl | rfl | rfl | rfl | rfl | rfl
    | rfl | rfl | rfl <;> decide

theorem hex_ne_quote (c : Char) (h : c ∈ hextable) : c ≠ '"' ∧ c ≠ '\\' := by
  simp only [hextable, List.mem_cons, List.mem_singleton, List.not_mem_nil, or_false] at h
  rcases h with rfl | rfl | rfl | rfl | rfl | rfl | rfl | rfl | rfl | rfl | rfl | rfl | rfl
    | rfl | rfl | rfl <;> decide

theorem flatMap_escapeChar_hex (s : List Char) (h : ∀ c ∈ s, c ∈ hextable) :
    s.flatMap escapeChar = s := by
  induction s with
  | nil => rfl
  | cons c s ih =>
    rw [List.flatMap_cons, escapeChar_hex c (h c (List.mem_cons_self _ _)),
      ih (fun x hx => h x (List.mem_cons_of_mem _ hx))]
    rfl

theorem EncodeToString_length (b : List Byte) : (EncodeToString b).length = 2 * b.length := by
  induction b with
  | nil => rfl
  | cons v b ih => simp [EncodeToString, ih]; omega

theorem EncodeToString_hex (b : List Byte) : ∀ c ∈ EncodeToString b, c ∈ hextable := by
  induction b with
  | nil => intro c hc; simp [EncodeToString] at hc
  | cons v b ih =>
    intro c hc
    simp only [EncodeToString, List.mem_cons] at hc
    rcases hc with rfl | rfl | hc
    · exact hextable_getD_mem _ (by have := v.isLt; omega)
    · exact hextable_getD_mem _ (by omega)
    · exact ih c hc

theorem hexValues_EncodeToString (b : List Byte) :
    hexValues (EncodeToString b) = some (b.map Fin.val) := by
  induction b with
  | nil => rfl
  | cons v b ih =>
    simp only [EncodeToString, hexValues, ih, List.map_cons]
    rw [hexDigitValue_getD _ (by have := v.isLt; omega), hexDigitValue_getD _ (by omega)]
    simp only [Option.some.injEq, List.cons.injEq, and_true]
    omega

theorem digitChar_spec (d : Nat) (h : d < 10) :
    ('0' ≤ digitChar d ∧ digitChar d ≤ '9') ∧ (digitChar d).toNat - 48 = d ∧
      digitChar d ≠ '-' := by
  interval_cases d <;> decide

theorem readDigits_formatDigits (fuel : Nat) :
    ∀ (n : Nat) (acc rest : List Char), n < fuel →
      readDigits (formatDigits fuel n acc ++ rest) 0 = readDigits (acc ++ rest) n := by
  induction fuel with
  | zero => intro n acc rest h; omega
  | succ fuel ih =>
    intro n acc rest h
    obtain ⟨hd, hv, _⟩ := digitChar_spec (n % 10) (Nat.mod_lt _ (by omega))
    unfold formatDigits
    by_cases h0 : n / 10 = 0
    · simp only [h0, if_true, List.cons_append]
      conv_lhs => unfold readDigits
      simp only [hd, and_self, if_true, hv]
      have : n % 10 = n := Nat.mod_eq_of_lt (by omega)
      simp [this]
    · simp only [h0, if_false]
      rw [ih (n / 10) _ rest (by omega)]
      simp only [List.cons_append]
      conv_lhs => unfold readDigits
      simp only [hd, and_self, if_true, hv]
      have : 10 * (n / 10) + n % 10 = n := Nat.div_add_mod n 10
      rw [this]

theorem formatDigits_head (fuel n : Nat) (acc : List Char) :
    ∃ d ds, formatDigits (fuel + 1) n acc = d :: ds ∧ ('0' ≤ d ∧ d ≤ '9') ∧ d ≠ '-' := by
  induction fuel generalizing n acc with
  | zero =>
    obtain ⟨hd, _, hm⟩ := digitChar_spec (n % 10) (Nat.mod_lt _ (by omega))
    unfold formatDigits
    by_cases h0 : n / 10 = 0
    · exact ⟨_, acc, by simp [h0], hd, hm⟩
    · exact ⟨_, acc, by simp [h0, formatDigits], hd, hm⟩
  | succ fuel ih =>
    obtain ⟨hd, _, hm⟩ := digitChar_spec (n % 10) (Nat.mod_lt _ (by omega))
    unfold formatDigits
    by_cases h0 : n / 10 = 0
    · exact ⟨_, acc, by simp [h0], hd, hm⟩
    · simp only [h0, if_false]
      exact ih (n / 10) _

theorem readDigits_end (rest : List Char) (n : Nat) (h : endsNumber rest) :
    readDigits rest n = (n, rest) := by
  cases rest with
  | nil => rfl
  | cons c cs =>
    unfold readDigits
    simp [h c cs rfl]

theorem readDigits_formatNat (n : Nat) (rest : List Char) (h : endsNumber rest) :
    readDigits (formatNat n ++ rest) 0 = (n, rest) := by
  unfold formatNat
  rw [readDigits_formatDigits (n + 1) n [] rest (by omega)]
  exact readDigits_end rest n h

theorem readInt_formatInt (t : Int) (rest : List Char) (h : endsNumber rest) :
    readInt (formatInt t ++ rest) = some (t, rest) := by
  obtain ⟨d, ds, hfmt, hd, hm⟩ := formatDigits_head t.natAbs t.natAbs []
  have hread := readDigits_formatNat t.natAbs rest h
  unfold formatNat at hread
  unfold formatInt formatNat
  by_cases ht : t < 0
  · simp only [ht, if_true, List.cons_append]
    unfold readInt
    simp only [if_true]
    rw [hfmt, List.cons_append]
    simp only [hd, and_self, if_true]
    rw [← List.cons_append, ← hfmt, hread]
    simp only [Option.some.injEq, Prod.mk.injEq, and_true]
    omega
  · simp only [ht, if_false]
    rw [hfmt, List.cons_append]
    unfold readInt
    simp only [hm, if_false, hd, and_self, if_true]
    rw [← List.cons_append, ← hfmt, hread]
    simp only [Option.some.injEq, Prod.mk.injEq, and_true]
    omega

theorem expect_append (p rest : List Char) : expect p (p ++ rest) = some rest := by
  induction p with
  | nil => cases rest <;> rfl
  | cons c p ih => simp [expect, ih]

theorem readString_hex (s rest : List Char) (h : ∀ c ∈ s, c ∈ hextable) :
    readString (s ++ '"' :: rest) = some (s, rest) := by
  induction s with
  | nil =>
    cases rest with
    | nil => rfl
    | cons e cs =>
      simp only [List.nil_append]
      unfold readString
      simp
  | cons c s ih =>
    obtain ⟨hq, hb⟩ := hex_ne_quote c (h c (List.mem_cons_self _ _))
    have ih2 := ih (fun x hx => h x (List.mem_cons_of_mem _ hx))
    cases hs : s ++ '"' :: rest with
    | nil => simp at hs
    | cons e cs =>
      rw [hs] at ih2
      rw [List.cons_append, hs]
      unfold readString
      simp only [hq, hb, if_false, ih2]

theorem Marshal_hex (s : List Char) (t : Int) (h : ∀ c ∈ s, c ∈ hextable) :
    Marshal { Badge := s, Time := t } =
      ['{', '"', 'b', 'a', 'd', 'g', 'e', '"', ':', '"'] ++
        (s ++ '"' :: ([',', '"', 't', 'i', 'm', 'e', '"', ':'] ++ (formatInt t ++ ['}']))) := by
  simp [Marshal, encodeString, flatMap_escapeChar_hex s h]

theorem decodeBadgeEvent_Marshal_hex (s : List Char) (t : Int) (h : ∀ c ∈ s, c ∈ hextable) :
    decodeBadgeEvent (Marshal { Badge := s, Time := t }) = some { Badge := s, Time := t } := by
  rw [Marshal_hex s t h]
  unfold decodeBadgeEvent
  rw [expect_append]
  simp only [readString_hex s _ h]
  rw [expect_append]
  have hend : endsNumber ['}'] := by
    intro c cs hc
    simp only [List.cons.injEq] at hc
    obtain ⟨rfl, _⟩ := hc
    decide
  simp only [readInt_formatInt t ['}'] hend, if_true]

/-! ## Identity and serialisation: the claims -/

/-- C6: for every card response `b` and capture time `T`, the identity is the lowercase
hex encoding of `b` (two characters of `0-9a-f` per byte, high digit first, reading back
to the bytes of `b`), and the payload is the text `\x7b"badge":"<hex>","time":<T>\x7d`
with `T` in decimal; the bytes `04 1A 2B 3C` give `041a2b3c`. -/
theorem badgeMessage_is_hex_payload (b : List Byte) (T : Int) :
    (EncodeToString b).length = 2 * b.length ∧
      (∀ c ∈ EncodeToString b, c ∈ "0123456789abcdef".toList) ∧
      hexValues (EncodeToString b) = some (b.map Fin.val) ∧
      readInt (formatInt T) = some (T, []) ∧
      badgeMessage b T =
        "\x7b\"badge\":\"".toList ++ EncodeToString b ++ "\",\"time\":".toList
          ++ formatInt T ++ "\x7d".toList ∧
      EncodeToString [0x04, 0x1A, 0x2B, 0x3C] = "041a2b3c".toList ∧
      badgeMessage [0x04, 0x1A, 0x2B, 0x3C] T =
        "\x7b\"badge\":\"041a2b3c\",\"time\":".toList ++ formatInt T ++ "\x7d".toList := by
  have hmsg : ∀ b : List Byte, badgeMessage b T =
      "\x7b\"badge\":\"".toList ++ EncodeToString b ++ "\",\"time\":".toList
        ++ formatInt T ++ "\x7d".toList := by
    intro b
    unfold badgeMessage
    rw [Marshal_hex _ _ (EncodeToString_hex b)]
    simp
  refine ⟨EncodeToString_length b, EncodeToString_hex b, hexValues_EncodeToString b, ?_,
    hmsg b, by decide, ?_⟩
  · have := readInt_formatInt T [] (by intro c cs hc; cases hc)
    simpa using this
  · rw [hmsg]
    have : EncodeToString [0x04, 0x1A, 0x2B, 0x3C] = "041a2b3c".toList := by decide
    rw [this]
    simp

/-- C7: serialising a `Card` whose badge is a lowercase hex string and decoding the
payload gives back the same badge and time, and two such cards have the same payload
exactly when they have the same badge and the same time. -/
theorem Marshal_roundtrip (s1 s2 : List Char) (t1 t2 : Int)
    (h1 : ∀ c ∈ s1, c ∈ hextable) (h2 : ∀ c ∈ s2, c ∈ hextable) :
    decodeBadgeEvent (Marshal { Badge := s1, Time := t1 }) = some { Badge := s1, Time := t1 } ∧
      (Marshal { Badge := s1, Time := t1 } = Marshal { Badge := s2, Time := t2 }
        ↔ s1 = s2 ∧ t1 = t2) := by
  refine ⟨decodeBadgeEvent_Marshal_hex s1 t1 h1, ?_, ?_⟩
  · intro heq
    have d1 := decodeBadgeEvent_Marshal_hex s1 t1 h1
    have d2 := decodeBadgeEvent_Marshal_hex s2 t2 h2
    rw [heq, d2] at d1
    simp only [Option.some.injEq, Card.mk.injEq] at d1
    exact ⟨d1.1.symm, d1.2.symm⟩
  · rintro ⟨rfl, rfl⟩
    rfl

/-- C7, at the badge `041a2b3c` captured at two different instants. -/
theorem Marshal_roundtrip_witness :
    decodeBadgeEvent (Marshal { Badge := "041a2b3c".toList, Time := 1700000000123 })
        = some { Badge := "041a2b3c".toList, Time := 1700000000123 } ∧
      (Marshal { Badge := "041a2b3c".toList, Time := 1700000000123 }
          = Marshal { Badge := "041a2b3c".toList, Time := 1700000000124 }
        ↔ "041a2b3c".toList = "041a2b3c".toList ∧ (1700000000123 : Int) = 1700000000124) :=
  Marshal_roundtrip "041a2b3c".toList "041a2b3c".toList 1700000000123 1700000000124
    (by decide) (by decide)

end BadgeReader
